import Mathlib

/-!
Shallow embedding of `syma_driver.c`, an Arduino sketch driving a Syma S107
IR helicopter, together with proofs about its packet framing, pulse
generation, rate pacing and serial update handling.

Modelling conventions:
* Output on the IR LED pin is modelled as a list of events (`Ev`): pin
  writes and `delayMicroseconds` calls, in program order.
* C `int` values are modelled as `ℤ` (the arithmetic in this sketch stays
  far inside 32-bit range; we model the defined-behaviour reading of the
  source, not a 16-bit-overflow platform quirk).
* C `byte` (uint8) parameters are modelled as `ℕ` reduced mod 256 at the
  conversion point, exactly where the C conversion happens.
* `while` loops are translated to well-founded recursion on the same
  decreasing measure that makes the C loop terminate.
-/

namespace Syma

/-! ### Constants, verbatim from the `#define` block of the source -/

def BYTES_IN_PACKET : ℕ := 4
def BITS_IN_BYTE : ℕ := 8
def PACKETS_PER_SECOND : ℕ := 10
def MICROSECONDS_IN_A_SECOND : ℕ := 1000
def CYCLES_FOR_HEADER : ℕ := 77
def CYCLES_FOR_BIT : ℕ := 12
def CYCLES_FOR_FOOTER : ℕ := 12
def CYCLE_TIME : ℕ := 26
def HEADER_DELAY : ℕ := 1998
def ONE : ℕ := 688
def ZERO : ℕ := 288
def READY_TO_ACCEPT_ACK : ℕ := 129

/-- Observable events on the IR LED pin: `digitalWrite(LED, HIGH)`,
`digitalWrite(LED, LOW)`, and `delayMicroseconds(us)`. -/
inductive Ev where
  | high : Ev
  | low : Ev
  | delayUs : ℕ → Ev
deriving DecidableEq

/-- The body of one iteration of the `while` loop in `pulse`:
write HIGH, wait 10µs, write LOW, wait 10µs (one full 26µs carrier
cycle counting the ~3µs cost of each `digitalWrite`). -/
def cycleEvents : List Ev := [Ev.high, Ev.delayUs 10, Ev.low, Ev.delayUs 10]

/-- `void pulse(int cycles)`: `while (cycles > 0) { ...one carrier cycle...; cycles--; }`.
The C loop terminates because `cycles` strictly decreases while positive;
the same measure (`cycles.toNat`) justifies this well-founded recursion. -/
def pulse (cycles : ℤ) : List Ev :=
  if 0 < cycles then cycleEvents ++ pulse (cycles - 1) else []
termination_by cycles.toNat
decreasing_by omega

/-- `void header()`: 77 carrier cycles then hold low for 1998µs. -/
def header : List Ev := pulse CYCLES_FOR_HEADER ++ [Ev.delayUs HEADER_DELAY]

/-- `void footer()`: 12 carrier cycles, no trailing delay. -/
def footer : List Ev := pulse CYCLES_FOR_FOOTER

/-- `void one()`: hold low for the 688µs "1" symbol delay. -/
def one : List Ev := [Ev.delayUs ONE]

/-- `void zero()`: hold low for the 288µs "0" symbol delay. -/
def zero : List Ev := [Ev.delayUs ZERO]

/-- The test `packet_bytes[i] & bit_masks[j]` used as a C truth value,
with `bit_masks[j] = 2^j`. -/
def bitIsSet (b : ℕ) (j : ℕ) : Bool := decide (b &&& 2 ^ j ≠ 0)

/-- The `packet_bytes` array as filled at the top of `sendPacket`; its
elements are C `byte`s, so each argument is reduced mod 256 at the
parameter conversion. -/
def packetBytes (yaw pitch throttle trim : ℕ) : Fin 4 → ℕ
  | ⟨0, _⟩ => yaw % 256
  | ⟨1, _⟩ => pitch % 256
  | ⟨2, _⟩ => throttle % 256
  | ⟨3, _⟩ => trim % 256

/-- The bit-transmission `while` loop of `sendPacket`, with the loop-carried
statics threaded explicitly.  One iteration: emit the 12 bit-start carrier
cycles, test `packet_bytes[current_byte_index] & bit_masks[current_bit_index--]`,
emit `one()`/`zero()` and bump the matching counter, then on bit-index
underflow reset it to 7 and advance the byte index.  Returns the emitted
events, the final `ones`/`zeroes` counters and the final index values.
The C loop terminates because each iteration either decreases the bit index
or advances the byte index toward `BYTES_IN_PACKET`; the measure below is
that argument. -/
def spLoop (pb : Fin 4 → ℕ) (byteIdx bitIdx : ℤ) (ones zeroes : ℕ) :
    List Ev × ℕ × ℕ × ℤ × ℤ :=
  if h : byteIdx < 4 then
    let bit := bitIsSet (pb ⟨byteIdx.toNat, by omega⟩) bitIdx.toNat
    let evs := pulse CYCLES_FOR_BIT ++ (if bit then one else zero)
    let ones' := if bit then ones + 1 else ones
    let zeroes' := if bit then zeroes else zeroes + 1
    if bitIdx - 1 < 0 then
      let r := spLoop pb (byteIdx + 1) 7 ones' zeroes'
      (evs ++ r.1, r.2)
    else
      let r := spLoop pb byteIdx (bitIdx - 1) ones' zeroes'
      (evs ++ r.1, r.2)
  else ([], ones, zeroes, byteIdx, bitIdx)
termination_by (4 - byteIdx).toNat * 9 + bitIdx.toNat
decreasing_by
  · omega
  · omega

/-- `header_time` of `sendPacket`: `(CYCLES_FOR_HEADER * CYCLE_TIME) + HEADER_DELAY`. -/
def header_time : ℕ := CYCLES_FOR_HEADER * CYCLE_TIME + HEADER_DELAY

/-- `footer_time` of `sendPacket`: `CYCLES_FOR_FOOTER * CYCLE_TIME`. -/
def footer_time : ℕ := CYCLES_FOR_FOOTER * CYCLE_TIME

/-- `total_bit_start_time` of `sendPacket`:
`((CYCLES_FOR_BIT * CYCLE_TIME) * BITS_IN_BYTE) * BYTES_IN_PACKET`. -/
def total_bit_start_time : ℕ := CYCLES_FOR_BIT * CYCLE_TIME * BITS_IN_BYTE * BYTES_IN_PACKET

/-- `total_packet_time` of `sendPacket` as a function of the final
`ones`/`zeroes` counters (all summands are nonnegative). -/
def total_packet_time (ones zeroes : ℕ) : ℕ :=
  header_time + footer_time + total_bit_start_time + ONE * ones + ZERO * zeroes

/-- Return value of `sendPacket`.  The source computes
`(MICROSECONDS_IN_A_SECOND / PACKETS_PER_SECOND) - ((float) total_packet_time / MICROSECONDS_IN_A_SECOND)`
(note `MICROSECONDS_IN_A_SECOND` is `#define`d as 1000, so the first term is
the integer division `1000 / 10 = 100`), and the `float` result is truncated
toward zero by the implicit conversion to `int` at `return`.  For every
`total_packet_time` reachable here (at most tens of thousands, far below
`2^24`) the single-precision evaluation is exact up to that truncation, so
the returned `int` equals the truncation toward zero of the exact value
`100 - total_packet_time/1000 = (100*1000 - total_packet_time)/1000`,
i.e. C-style `Int.tdiv`. -/
def sendPacketRet (ones zeroes : ℕ) : ℤ :=
  Int.tdiv ((MICROSECONDS_IN_A_SECOND / PACKETS_PER_SECOND * MICROSECONDS_IN_A_SECOND : ℕ) -
      (total_packet_time ones zeroes : ℤ)) (MICROSECONDS_IN_A_SECOND : ℕ)

/-- Events emitted by one `sendPacket` call (ignoring the STATUS pin):
header, the 32-bit body loop started at `current_byte_index = 0`,
`current_bit_index = BITS_IN_BYTE - 1`, `ones = zeroes = 0`, then footer. -/
def sendPacketEvents (yaw pitch throttle trim : ℕ) : List Ev :=
  header ++
    (spLoop (packetBytes yaw pitch throttle trim) 0 ((BITS_IN_BYTE : ℤ) - 1) 0 0).1 ++
    footer

/-- Final value of the `ones` counter of `sendPacket`. -/
def sendPacketOnes (yaw pitch throttle trim : ℕ) : ℕ :=
  (spLoop (packetBytes yaw pitch throttle trim) 0 ((BITS_IN_BYTE : ℤ) - 1) 0 0).2.1

/-- Final value of the `zeroes` counter of `sendPacket`. -/
def sendPacketZeroes (yaw pitch throttle trim : ℕ) : ℕ :=
  (spLoop (packetBytes yaw pitch throttle trim) 0 ((BITS_IN_BYTE : ℤ) - 1) 0 0).2.2.1

/-- The value returned by `sendPacket` for the given command bytes. -/
def sendPacket (yaw pitch throttle trim : ℕ) : ℤ :=
  sendPacketRet (sendPacketOnes yaw pitch throttle trim)
    (sendPacketZeroes yaw pitch throttle trim)

/-- The `static` locals of `sendPacket`, which persist between calls.
`ones`/`zeroes` only ever hold nonnegative counts, so they are carried
as `ℕ`. -/
structure SPState where
  current_byte_index : ℤ
  current_bit_index : ℤ
  ones : ℕ
  zeroes : ℕ
  packet_bytes : Fin 4 → ℕ

/-- `sendPacket` with its static state threaded explicitly: result is
(emitted events, returned value, final static state).  The incoming state
`_s` is never read because the source assigns every static
(`ones = 0; zeroes = 0;` the four `packet_bytes` stores,
`current_byte_index = 0; current_bit_index = BITS_IN_BYTE - 1;`) before any
of them is used. -/
def sendPacketS (_s : SPState) (yaw pitch throttle trim : ℕ) : List Ev × ℤ × SPState :=
  let pb := packetBytes yaw pitch throttle trim
  let r := spLoop pb 0 ((BITS_IN_BYTE : ℤ) - 1) 0 0
  (header ++ r.1 ++ footer,
   sendPacketRet r.2.1 r.2.2.1,
   { current_byte_index := r.2.2.2.1
     current_bit_index := r.2.2.2.2
     ones := r.2.1
     zeroes := r.2.2.1
     packet_bytes := pb })

/-- The value actually handed to Arduino `delay(unsigned long)` at
`delay(sendPacket(...))`: the C conversion of the signed `int` return value
to `unsigned long` (32 bits on the reference platform), i.e. reduction
mod `2^32`. -/
def delayArg (r : ℤ) : ℕ := (r % 2 ^ 32).toNat

/-- The `for(i = 0; i < 4; i++) command[i] = Serial.read();` block: the
first four buffered serial bytes land in the `command` array (a `byte`
array, hence the mod 256 at the store).  Only executed under the guard
`Serial.available() >= BYTES_IN_PACKET`, so the buffer has at least four
elements when this runs. -/
def readCmd (buf : List ℕ) : Fin 4 → ℕ := fun i => buf.getD (i : ℕ) 0 % 256

/-- One iteration of the `while(1)` body of `loop()`, over a model serial
input buffer and the global `command` array: poll for a 4-byte update,
transmit, compute the `delay` argument, send the ack byte.  Returns the
remaining buffer, the new `command`, the IR events, the `delay` argument
and the byte written back on serial. -/
def loopBody (buf : List ℕ) (cmd : Fin 4 → ℕ) :
    List ℕ × (Fin 4 → ℕ) × List Ev × ℕ × ℕ :=
  let cmd' := if BYTES_IN_PACKET ≤ buf.length then readCmd buf else cmd
  let buf' := if BYTES_IN_PACKET ≤ buf.length then buf.drop BYTES_IN_PACKET else buf
  (buf', cmd',
   sendPacketEvents (cmd' 0) (cmd' 1) (cmd' 2) (cmd' 3),
   delayArg (sendPacket (cmd' 0) (cmd' 1) (cmd' 2) (cmd' 3)),
   READY_TO_ACCEPT_ACK)

/-! ### Specification-side auxiliary definitions

These restate the emitted wire format in direct list form (bit lists,
symbol lists) so the loop above can be related to them, and give the
decoder described by the spec's round-trip property. -/

/-- Bits `k, k-1, …, 0` of `b`, most significant position first, as the
framing loop scans one byte. -/
def bitsDown (b : ℕ) : ℕ → List Bool
  | 0 => [bitIsSet b 0]
  | k + 1 => bitIsSet b (k + 1) :: bitsDown b k

/-- The eight bits of a byte, MSB first. -/
def byteBits (b : ℕ) : List Bool := bitsDown b 7

/-- All 32 bits of a packet: the four `packet_bytes` in order
Yaw, Pitch, Throttle, Trim, each MSB first. -/
def packetBits (pb : Fin 4 → ℕ) : List Bool :=
  byteBits (pb 0) ++ byteBits (pb 1) ++ byteBits (pb 2) ++ byteBits (pb 3)

/-- The events for one transmitted bit: the 12 bit-start carrier cycles
followed by the symbol delay. -/
def bitSymbol (bit : Bool) : List Ev :=
  pulse CYCLES_FOR_BIT ++ (if bit then one else zero)

/-- The events of the whole 32-bit packet body, as a flat list. -/
def bodyEvents (bits : List Bool) : List Ev := (bits.map bitSymbol).flatten

/-- Reassemble a byte from its bits, MSB first. -/
def byteOfBits (bits : List Bool) : ℕ :=
  bits.foldl (fun acc b => 2 * acc + (if b then 1 else 0)) 0

/-- Consume an exact expected prefix of an event list, returning the
remainder, or `none` if the list does not start with that prefix. -/
def dropExact : List Ev → List Ev → Option (List Ev)
  | [], evs => some evs
  | _ :: _, [] => none
  | p :: ps, e :: es => if p = e then dropExact ps es else none

/-- Decode one bit: the 12 bit-start carrier cycles, then a low-hold whose
duration classifies the bit (688µs ⇒ 1, 288µs ⇒ 0), per the spec's
threshold description. -/
def readBit (evs : List Ev) : Option (Bool × List Ev) :=
  match dropExact (pulse CYCLES_FOR_BIT) evs with
  | none => none
  | some rest =>
    match rest with
    | Ev.delayUs d :: rest' =>
      if d = ONE then some (true, rest')
      else if d = ZERO then some (false, rest')
      else none
    | _ => none

/-- Decode `n` consecutive bits. -/
def readBits : ℕ → List Ev → Option (List Bool × List Ev)
  | 0, evs => some ([], evs)
  | n + 1, evs =>
    match readBit evs with
    | none => none
    | some (b, rest) =>
      match readBits n rest with
      | none => none
      | some (bs, rest') => some (b :: bs, rest')

/-- The receiver-side decoder described by the spec's round-trip property:
detect the header, read 32 bits by thresholding the low-hold durations,
detect the footer, and reassemble the four bytes (Yaw, Pitch, Throttle,
Trim, MSB first). -/
def specDecode (evs : List Ev) : Option (ℕ × ℕ × ℕ × ℕ) :=
  match dropExact header evs with
  | none => none
  | some r1 =>
    match readBits 32 r1 with
    | none => none
    | some (bits, r2) =>
      match dropExact footer r2 with
      | none => none
      | some r3 =>
        if r3 = [] then
          some (byteOfBits (bits.take 8), byteOfBits ((bits.drop 8).take 8),
                byteOfBits ((bits.drop 16).take 8), byteOfBits (bits.drop 24))
        else none

/-! ### Basic lemmas about the pulse generator -/

lemma pulse_natCast (n : ℕ) : pulse (n : ℤ) = (List.replicate n cycleEvents).flatten := by
  induction n with
  | zero => rw [pulse]; simp
  | succ k ih =>
    rw [pulse, if_pos (by omega : (0 : ℤ) < ((k + 1 : ℕ) : ℤ))]
    have hc : ((k + 1 : ℕ) : ℤ) - 1 = (k : ℤ) := by push_cast; ring
    rw [hc, ih, List.replicate_succ]
    simp

lemma pulse_nonpos (c : ℤ) (h : c ≤ 0) : pulse c = [] := by
  rw [pulse, if_neg (by omega)]

lemma pulse_eq_toNat (c : ℤ) : pulse c = (List.replicate c.toNat cycleEvents).flatten := by
  rcases le_or_lt c 0 with h | h
  · rw [pulse_nonpos c h]
    have hz : c.toNat = 0 := by omega
    rw [hz]
    simp
  · have h2 : c = (c.toNat : ℤ) := by omega
    conv_lhs => rw [h2]
    rw [pulse_natCast]

lemma count_flatten_replicate_cycle (n : ℕ) (e : Ev) :
    ((List.replicate n cycleEvents).flatten).count e = n * cycleEvents.count e := by
  induction n with
  | zero => simp
  | succ k ih =>
    rw [List.replicate_succ]
    simp only [List.flatten_cons, List.count_append, ih]
    ring

/-! ### The framing loop, related to flat bit lists -/

lemma spLoop_end (pb : Fin 4 → ℕ) (bitIdx : ℤ) (o z : ℕ) :
    spLoop pb 4 bitIdx o z = ([], o, z, 4, bitIdx) := by
  rw [spLoop]
  simp

lemma spLoop_byte (pb : Fin 4 → ℕ) (i : Fin 4) (k : ℕ) (o z : ℕ) :
    spLoop pb ((i : ℕ) : ℤ) (k : ℤ) o z =
      (bodyEvents (bitsDown (pb i) k) ++
         (spLoop pb (((i : ℕ) + 1 : ℕ) : ℤ) 7 (o + (bitsDown (pb i) k).count true)
            (z + (bitsDown (pb i) k).count false)).1,
       (spLoop pb (((i : ℕ) + 1 : ℕ) : ℤ) 7 (o + (bitsDown (pb i) k).count true)
          (z + (bitsDown (pb i) k).count false)).2) := by
  induction k generalizing o z with
  | zero =>
    rw [spLoop, dif_pos (by omega : ((i : ℕ) : ℤ) < 4)]
    simp only [Int.toNat_natCast, Fin.eta]
    rw [if_pos (by omega : (((0 : ℕ) : ℤ)) - 1 < 0)]
    by_cases hbit : bitIsSet (pb i) 0 = true
    · simp [hbit, bitsDown, bodyEvents, bitSymbol, List.count_cons, List.append_assoc,
        Nat.add_comm, Nat.add_left_comm, Nat.add_assoc]
    · rw [Bool.not_eq_true] at hbit
      simp [hbit, bitsDown, bodyEvents, bitSymbol, List.count_cons, List.append_assoc,
        Nat.add_comm, Nat.add_left_comm, Nat.add_assoc]
  | succ k ih =>
    rw [spLoop, dif_pos (by omega : ((i : ℕ) : ℤ) < 4)]
    simp only [Int.toNat_natCast, Fin.eta]
    have hneg : ¬(((k + 1 : ℕ) : ℤ) - 1 < 0) := by omega
    have hc : ((k + 1 : ℕ) : ℤ) - 1 = ((k : ℕ) : ℤ) := by push_cast; ring
    rw [if_neg hneg, hc, ih]
    by_cases hbit : bitIsSet (pb i) (k + 1) = true
    · simp [hbit, bitsDown, bodyEvents, bitSymbol, List.count_cons, List.append_assoc,
        Nat.add_comm, Nat.add_left_comm, Nat.add_assoc]
    · rw [Bool.not_eq_true] at hbit
      simp [hbit, bitsDown, bodyEvents, bitSymbol, List.count_cons, List.append_assoc,
        Nat.add_comm, Nat.add_left_comm, Nat.add_assoc]

lemma bodyEvents_append (l1 l2 : List Bool) :
    bodyEvents (l1 ++ l2) = bodyEvents l1 ++ bodyEvents l2 := by
  simp [bodyEvents]

lemma spLoop_packet (pb : Fin 4 → ℕ) :
    spLoop pb 0 7 0 0 =
      (bodyEvents (packetBits pb), (packetBits pb).count true,
       (packetBits pb).count false, 4, 7) := by
  have h0 := spLoop_byte pb 0 7
  have h1 := spLoop_byte pb 1 7
  have h2 := spLoop_byte pb 2 7
  have h3 := spLoop_byte pb 3 7
  norm_num at h0 h1 h2 h3
  have e3 : (((3 : Fin 4) : ℕ) : ℤ) = 3 := by decide
  rw [e3] at h3
  norm_num at h3
  rw [h0, h1, h2, h3, spLoop_end]
  simp [packetBits, byteBits, bodyEvents_append, List.count_append, List.append_assoc,
    Nat.add_comm, Nat.add_left_comm, Nat.add_assoc]

lemma bitsDown_length (b : ℕ) (k : ℕ) : (bitsDown b k).length = k + 1 := by
  induction k with
  | zero => simp [bitsDown]
  | succ k ih => simp [bitsDown, ih]

lemma byteBits_length (b : ℕ) : (byteBits b).length = 8 := by
  simp [byteBits, bitsDown_length]

lemma packetBits_length (pb : Fin 4 → ℕ) : (packetBits pb).length = 32 := by
  simp [packetBits, byteBits_length]

lemma count_true_add_count_false (l : List Bool) :
    l.count true + l.count false = l.length := by
  induction l with
  | nil => simp
  | cons b t ih => cases b <;> simp [List.count_cons] <;> omega

/-! ### Rewriting `sendPacket`'s pieces into flat-list form -/

lemma bits_idx_eq : ((BITS_IN_BYTE : ℕ) : ℤ) - 1 = 7 := by norm_num [BITS_IN_BYTE]

lemma sendPacketEvents_eq (yaw pitch throttle trim : ℕ) :
    sendPacketEvents yaw pitch throttle trim =
      header ++ bodyEvents (packetBits (packetBytes yaw pitch throttle trim)) ++ footer := by
  unfold sendPacketEvents
  rw [bits_idx_eq, spLoop_packet]

lemma sendPacketOnes_eq (yaw pitch throttle trim : ℕ) :
    sendPacketOnes yaw pitch throttle trim =
      (packetBits (packetBytes yaw pitch throttle trim)).count true := by
  unfold sendPacketOnes
  rw [bits_idx_eq, spLoop_packet]

lemma sendPacketZeroes_eq (yaw pitch throttle trim : ℕ) :
    sendPacketZeroes yaw pitch throttle trim =
      (packetBits (packetBytes yaw pitch throttle trim)).count false := by
  unfold sendPacketZeroes
  rw [bits_idx_eq, spLoop_packet]

lemma sendPacketOnes_add_zeroes (yaw pitch throttle trim : ℕ) :
    sendPacketOnes yaw pitch throttle trim + sendPacketZeroes yaw pitch throttle trim = 32 := by
  rw [sendPacketOnes_eq, sendPacketZeroes_eq, count_true_add_count_false, packetBits_length]

/-! ### Decoder lemmas -/

lemma dropExact_append (pat rest : List Ev) : dropExact pat (pat ++ rest) = some rest := by
  induction pat with
  | nil => simp [dropExact]
  | cons p ps ih => simp [dropExact, ih]

lemma readBit_symbol (b : Bool) (rest : List Ev) :
    readBit (bitSymbol b ++ rest) = some (b, rest) := by
  cases b <;>
    simp [readBit, bitSymbol, one, zero, ONE, ZERO, List.append_assoc, dropExact_append]

lemma readBits_body (bits : List Bool) (rest : List Ev) :
    readBits bits.length (bodyEvents bits ++ rest) = some (bits, rest) := by
  induction bits generalizing rest with
  | nil => simp [readBits, bodyEvents]
  | cons b bs ih =>
    have hcons : bodyEvents (b :: bs) = bitSymbol b ++ bodyEvents bs := by
      simp [bodyEvents]
    rw [List.length_cons, hcons, List.append_assoc]
    rw [readBits, readBit_symbol]
    simp [ih]

set_option maxRecDepth 8192 in
lemma byteOfBits_byteBits_fin : ∀ b : Fin 256, byteOfBits (byteBits (b : ℕ)) = (b : ℕ) := by
  decide

lemma byteOfBits_byteBits (b : ℕ) (h : b < 256) : byteOfBits (byteBits b) = b :=
  byteOfBits_byteBits_fin ⟨b, h⟩

/-! ### C-style truncating division -/

lemma tdiv_natCast_natCast (a b : ℕ) :
    Int.tdiv (a : ℤ) (b : ℤ) = ((a / b : ℕ) : ℤ) := rfl

lemma tdiv_le_tdiv_of_le {a b : ℤ} (c : ℕ) (h : a ≤ b) :
    Int.tdiv a (c : ℤ) ≤ Int.tdiv b (c : ℤ) := by
  cases a with
  | ofNat m =>
    cases b with
    | ofNat n =>
      have e1 : Int.tdiv (Int.ofNat m) (c : ℤ) = ((m / c : ℕ) : ℤ) := rfl
      have e2 : Int.tdiv (Int.ofNat n) (c : ℤ) = ((n / c : ℕ) : ℤ) := rfl
      rw [e1, e2]
      have hmn : m ≤ n := Int.ofNat_le.mp h
      exact_mod_cast Nat.div_le_div_right hmn
    | negSucc n =>
      exact absurd h (not_le.mpr (lt_of_lt_of_le (Int.negSucc_lt_zero n) (Int.ofNat_nonneg m)))
  | negSucc m =>
    cases b with
    | ofNat n =>
      have e1 : Int.tdiv (Int.negSucc m) (c : ℤ) = -(((m + 1) / c : ℕ) : ℤ) := rfl
      have e2 : Int.tdiv (Int.ofNat n) (c : ℤ) = ((n / c : ℕ) : ℤ) := rfl
      rw [e1, e2]
      exact le_trans (neg_nonpos.mpr (by positivity)) (by positivity)
    | negSucc n =>
      have e1 : Int.tdiv (Int.negSucc m) (c : ℤ) = -(((m + 1) / c : ℕ) : ℤ) := rfl
      have e2 : Int.tdiv (Int.negSucc n) (c : ℤ) = -(((n + 1) / c : ℕ) : ℤ) := rfl
      rw [e1, e2]
      rw [Int.negSucc_eq, Int.negSucc_eq] at h
      have hnm : n + 1 ≤ m + 1 := by omega
      have := Nat.div_le_div_right (c := c) hnm
      omega

lemma packetBits_take8 (pb : Fin 4 → ℕ) : (packetBits pb).take 8 = byteBits (pb 0) := by
  rw [packetBits, List.append_assoc, List.append_assoc]
  exact List.take_left' (byteBits_length _)

lemma packetBits_drop8 (pb : Fin 4 → ℕ) :
    (packetBits pb).drop 8 = byteBits (pb 1) ++ (byteBits (pb 2) ++ byteBits (pb 3)) := by
  rw [packetBits, List.append_assoc, List.append_assoc]
  exact List.drop_left' (byteBits_length _)

lemma packetBits_drop16 (pb : Fin 4 → ℕ) :
    (packetBits pb).drop 16 = byteBits (pb 2) ++ byteBits (pb 3) := by
  rw [packetBits, List.append_assoc (byteBits (pb 0) ++ byteBits (pb 1))]
  exact List.drop_left' (by simp [byteBits_length])

lemma packetBits_drop24 (pb : Fin 4 → ℕ) : (packetBits pb).drop 24 = byteBits (pb 3) := by
  rw [packetBits]
  exact List.drop_left' (by simp [byteBits_length])

lemma specDecode_packet (pb : Fin 4 → ℕ) :
    specDecode (header ++ bodyEvents (packetBits pb) ++ footer) =
      some (byteOfBits (byteBits (pb 0)), byteOfBits (byteBits (pb 1)),
            byteOfBits (byteBits (pb 2)), byteOfBits (byteBits (pb 3))) := by
  have h1 : dropExact header (header ++ (bodyEvents (packetBits pb) ++ footer)) =
      some (bodyEvents (packetBits pb) ++ footer) := dropExact_append _ _
  have h2 : readBits 32 (bodyEvents (packetBits pb) ++ footer) = some (packetBits pb, footer) := by
    rw [← packetBits_length pb]
    exact readBits_body _ _
  have h3 : dropExact footer footer = some [] := by
    have := dropExact_append footer []
    simpa using this
  unfold specDecode
  rw [List.append_assoc]
  simp only [h1, h2, h3]
  simp [packetBits_take8, packetBits_drop8, packetBits_drop16, packetBits_drop24,
    List.take_left' (byteBits_length _)]

/-! ### Rate-pacer arithmetic -/

lemma total_packet_time_eq (o z : ℕ) :
    total_packet_time o z = 14296 + 688 * o + 288 * z := by
  unfold total_packet_time header_time footer_time total_bit_start_time ONE ZERO
    CYCLES_FOR_HEADER CYCLES_FOR_FOOTER CYCLES_FOR_BIT CYCLE_TIME HEADER_DELAY
    BITS_IN_BYTE BYTES_IN_PACKET
  ring

lemma sendPacketRet_closed (o z : ℕ) (h : total_packet_time o z ≤ 100000) :
    sendPacketRet o z = 100 - ((total_packet_time o z + 999) / 1000 : ℕ) := by
  unfold sendPacketRet
  have hn : ((MICROSECONDS_IN_A_SECOND / PACKETS_PER_SECOND * MICROSECONDS_IN_A_SECOND : ℕ) : ℤ) -
      (total_packet_time o z : ℤ) = ((100000 - total_packet_time o z : ℕ) : ℤ) := by
    simp only [MICROSECONDS_IN_A_SECOND, PACKETS_PER_SECOND]
    omega
  rw [hn, tdiv_natCast_natCast]
  rw [show (MICROSECONDS_IN_A_SECOND : ℕ) = 1000 from rfl]
  omega

lemma total_packet_time_bound (yaw pitch throttle trim : ℕ) :
    total_packet_time (sendPacketOnes yaw pitch throttle trim)
      (sendPacketZeroes yaw pitch throttle trim) ≤ 36312 := by
  have hsum := sendPacketOnes_add_zeroes yaw pitch throttle trim
  have he := total_packet_time_eq (sendPacketOnes yaw pitch throttle trim)
    (sendPacketZeroes yaw pitch throttle trim)
  omega

lemma sendPacket_bounds (yaw pitch throttle trim : ℕ) :
    63 ≤ sendPacket yaw pitch throttle trim ∧ sendPacket yaw pitch throttle trim ≤ 100 := by
  have hb := total_packet_time_bound yaw pitch throttle trim
  unfold sendPacket
  rw [sendPacketRet_closed _ _ (by omega)]
  omega

/-! ### Claim theorems -/

/-- Claim C1, as stated, is false: the claim asserts that `sendPacket`
returns `100000 - (4000 + 312 + 9984 + 688*onesCount + 288*zeroesCount)`
(microseconds), but at `onesCount = 18, zeroesCount = 14` the code returns
`69` (the source subtracts `total_packet_time/1000` from `1000/10 = 100`,
a millisecond-scale value), not `69288`. -/
theorem claim1_counterexample :
    sendPacketRet 18 14 ≠ 100000 - (4000 + 312 + 9984 + 688 * 18 + 288 * 14) := by
  decide

/-- Claim C1 (amended): the Rate Pacer's return value is the target period
minus the total packet time expressed in MILLIseconds and truncated toward
zero, i.e. `100 - ⌈(4000 + 312 + 9984 + 688*onesCount + 288*zeroesCount)/1000⌉`
whenever the total time does not exceed the 100000µs period — not the
microsecond difference itself. -/
theorem claim1_amended (o z : ℕ)
    (h : 4000 + 312 + 9984 + 688 * o + 288 * z ≤ 100000) :
    sendPacketRet o z =
      100 - ((4000 + 312 + 9984 + 688 * o + 288 * z + 999) / 1000 : ℕ) := by
  have he := total_packet_time_eq o z
  rw [sendPacketRet_closed o z (by omega), he]

/-- Witness for `claim1_amended` at `onesCount = 18`, `zeroesCount = 14`. -/
theorem claim1_amended_witness :
    4000 + 312 + 9984 + 688 * 18 + 288 * 14 ≤ 100000 ∧
      sendPacketRet 18 14 =
        100 - ((4000 + 312 + 9984 + 688 * 18 + 288 * 14 + 999) / 1000 : ℕ) :=
  ⟨by decide, claim1_amended 18 14 (by decide)⟩

/-- Claim C2, as stated, is false in its last conjunct: for the command
(yaw=63, pitch=63, throttle=0, trim=63) the returned residual delay is not
`100000 - 30712 = 69288`; the code returns `69` (milliseconds). -/
theorem claim2_counterexample : sendPacket 63 63 0 63 ≠ 69288 := by
  unfold sendPacket
  rw [sendPacketOnes_eq, sendPacketZeroes_eq]
  decide

/-- Claim C2 (amended): for the command (yaw=63, pitch=63, throttle=0,
trim=63), `transmit` counts onesCount=18 and zeroesCount=14, the computed
total packet time is 30712µs, and the returned residual delay is
`trunc((100000 - 30712)/1000) = 69` (milliseconds), not 69288. -/
theorem claim2_amended :
    sendPacketOnes 63 63 0 63 = 18 ∧ sendPacketZeroes 63 63 0 63 = 14 ∧
      total_packet_time 18 14 = 30712 ∧ sendPacket 63 63 0 63 = 69 := by
  refine ⟨?_, ?_, by decide, ?_⟩
  · rw [sendPacketOnes_eq]; decide
  · rw [sendPacketZeroes_eq]; decide
  · unfold sendPacket
    rw [sendPacketOnes_eq, sendPacketZeroes_eq]
    decide

/-- Claim C3: for every command, `transmit` emits exactly 32 bit-symbols
with `onesCount + zeroesCount = 32`; the emitted stream is exactly
header ++ 32 bit-symbols ++ footer, where the header is exactly 77 carrier
cycles followed by its fixed 1998µs trailing delay and the footer exactly
12 carrier cycles — all independent of the command. -/
theorem claim3_framing (yaw pitch throttle trim : ℕ) :
    (packetBits (packetBytes yaw pitch throttle trim)).length = 32 ∧
    sendPacketOnes yaw pitch throttle trim + sendPacketZeroes yaw pitch throttle trim = 32 ∧
    sendPacketEvents yaw pitch throttle trim =
      header ++ bodyEvents (packetBits (packetBytes yaw pitch throttle trim)) ++ footer ∧
    header = (List.replicate CYCLES_FOR_HEADER cycleEvents).flatten ++ [Ev.delayUs HEADER_DELAY] ∧
    footer = (List.replicate CYCLES_FOR_FOOTER cycleEvents).flatten :=
  ⟨packetBits_length _, sendPacketOnes_add_zeroes yaw pitch throttle trim,
   sendPacketEvents_eq yaw pitch throttle trim,
   by rw [header, pulse_natCast], by rw [footer, pulse_natCast]⟩

/-- Claim C4: for every command of four byte values, the decoder described
by the spec (header detect, 32 threshold reads on the low-delays
688µs ⇒ 1 / 288µs ⇒ 0, footer detect) reconstructs exactly the four input
bytes from the emitted pulse/delay sequence, MSB-first per byte, in
Yaw, Pitch, Throttle, Trim order. -/
theorem claim4_roundTrip (yaw pitch throttle trim : ℕ)
    (hy : yaw < 256) (hp : pitch < 256) (ht : throttle < 256) (htr : trim < 256) :
    specDecode (sendPacketEvents yaw pitch throttle trim) =
      some (yaw, pitch, throttle, trim) := by
  rw [sendPacketEvents_eq, specDecode_packet]
  have e0 : packetBytes yaw pitch throttle trim 0 = yaw % 256 := rfl
  have e1 : packetBytes yaw pitch throttle trim 1 = pitch % 256 := rfl
  have e2 : packetBytes yaw pitch throttle trim 2 = throttle % 256 := rfl
  have e3 : packetBytes yaw pitch throttle trim 3 = trim % 256 := rfl
  rw [e0, e1, e2, e3, Nat.mod_eq_of_lt hy, Nat.mod_eq_of_lt hp, Nat.mod_eq_of_lt ht,
    Nat.mod_eq_of_lt htr, byteOfBits_byteBits yaw hy, byteOfBits_byteBits pitch hp,
    byteOfBits_byteBits throttle ht, byteOfBits_byteBits trim htr]

/-- Witness for `claim4_roundTrip` at the default command (63, 63, 0, 63). -/
theorem claim4_roundTrip_witness :
    (63 : ℕ) < 256 ∧ (0 : ℕ) < 256 ∧
      specDecode (sendPacketEvents 63 63 0 63) = some (63, 63, 0, 63) :=
  ⟨by decide, by decide,
   claim4_roundTrip 63 63 0 63 (by decide) (by decide) (by decide) (by decide)⟩

/-- Claim C5, as stated, is false: a negative or zero residual is NOT turned
into a zero sleep.  At counter values `ones = 127, zeroes = 0` the computed
residual is `-1` (nonpositive), and the value handed to `delay` is the C
conversion of `-1` to `unsigned long`, i.e. `4294967295`, not `0` — the
source contains no clamping. -/
theorem claim5_counterexample :
    sendPacketRet 127 0 ≤ 0 ∧ delayArg (sendPacketRet 127 0) ≠ 0 := by
  constructor <;> decide

/-- Claim C5 (amended): the driver performs no clamping — the sleep value is
the raw residual converted to `unsigned long` — but for every 4-byte
command the computed residual is strictly positive, so the
negative-or-zero case can never arise in the driver loop and the sleep
value always equals the (positive) residual itself. -/
theorem claim5_amended (yaw pitch throttle trim : ℕ) :
    0 < sendPacket yaw pitch throttle trim ∧
      delayArg (sendPacket yaw pitch throttle trim) =
        (sendPacket yaw pitch throttle trim).toNat := by
  obtain ⟨h1, h2⟩ := sendPacket_bounds yaw pitch throttle trim
  refine ⟨by omega, ?_⟩
  unfold delayArg
  rw [Int.emod_eq_of_lt (by omega) (by omega)]

/-- Claim C6: holding `zeroesCount` fixed, the residual computed by
`sendPacket` is monotonically non-increasing in `onesCount`. -/
theorem claim6_monotone (z a b : ℕ) (h : a ≤ b) :
    sendPacketRet b z ≤ sendPacketRet a z := by
  unfold sendPacketRet
  apply tdiv_le_tdiv_of_le
  have ha := total_packet_time_eq a z
  have hb := total_packet_time_eq b z
  omega

/-- Witness for `claim6_monotone` with `zeroesCount = 14`, counts 3 ≤ 20. -/
theorem claim6_monotone_witness :
    (3 : ℕ) ≤ 20 ∧ sendPacketRet 20 14 ≤ sendPacketRet 3 14 :=
  ⟨by decide, claim6_monotone 14 3 20 (by decide)⟩

/-- Claim C7: the serial-read step consumes bytes only when at least 4 are
buffered, in which case it consumes exactly 4 and the next transmit uses
exactly those 4 values as Yaw, Pitch, Throttle, Trim; with fewer than 4
bytes buffered nothing is consumed and the previous command is
retransmitted unchanged. -/
theorem claim7_pollUpdate (buf : List ℕ) (cmd : Fin 4 → ℕ)
    (hbytes : ∀ x ∈ buf, x < 256) :
    (4 ≤ buf.length →
      (loopBody buf cmd).1 = buf.drop 4 ∧
      (∀ i : Fin 4, (loopBody buf cmd).2.1 i = buf.getD (i : ℕ) 0) ∧
      (loopBody buf cmd).2.2.1 =
        sendPacketEvents (buf.getD 0 0) (buf.getD 1 0) (buf.getD 2 0) (buf.getD 3 0)) ∧
    (buf.length < 4 →
      (loopBody buf cmd).1 = buf ∧
      (loopBody buf cmd).2.1 = cmd ∧
      (loopBody buf cmd).2.2.1 = sendPacketEvents (cmd 0) (cmd 1) (cmd 2) (cmd 3)) := by
  have hget : ∀ i : ℕ, i < buf.length → buf.getD i 0 % 256 = buf.getD i 0 := by
    intro i hi
    have hmem : buf.getD i 0 ∈ buf := by
      rw [List.getD_eq_getElem buf 0 hi]
      exact List.getElem_mem hi
    exact Nat.mod_eq_of_lt (hbytes _ hmem)
  have hb4 : BYTES_IN_PACKET = 4 := rfl
  constructor
  · intro hle
    refine ⟨?_, ?_, ?_⟩
    · simp only [loopBody, hb4, if_pos hle]
    · intro i
      simp only [loopBody, hb4, if_pos hle, readCmd]
      exact hget (i : ℕ) (by omega)
    · simp only [loopBody, hb4, if_pos hle, readCmd]
      rw [show (((0 : Fin 4) : ℕ)) = 0 from rfl, show (((1 : Fin 4) : ℕ)) = 1 from rfl,
        show (((2 : Fin 4) : ℕ)) = 2 from rfl, show (((3 : Fin 4) : ℕ)) = 3 from rfl,
        hget 0 (by omega), hget 1 (by omega), hget 2 (by omega), hget 3 (by omega)]
  · intro hlt
    have hc : ¬(4 ≤ buf.length) := by omega
    exact ⟨by simp only [loopBody, hb4, if_neg hc], by simp only [loopBody, hb4, if_neg hc],
      by simp only [loopBody, hb4, if_neg hc]⟩

/-- Witness for `claim7_pollUpdate`: a 5-byte buffer is consumed down to its
last byte and the transmitted command is the first four bytes; a 2-byte
buffer is left alone and the previous command is reused. -/
theorem claim7_pollUpdate_witness :
    (loopBody [10, 20, 30, 40, 50] (fun _ => 0)).1 = [50] ∧
    (loopBody [10, 20, 30, 40, 50] (fun _ => 0)).2.1 0 = 10 ∧
    (loopBody [10, 20] (fun _ => 7)).1 = [10, 20] := by
  have h5 := claim7_pollUpdate [10, 20, 30, 40, 50] (fun _ => 0) (by decide)
  have h2 := claim7_pollUpdate [10, 20] (fun _ => 7) (by decide)
  refine ⟨?_, ?_, ?_⟩
  · rw [(h5.1 (by decide)).1]
    decide
  · rw [(h5.1 (by decide)).2.1 0]
    decide
  · exact (h2.2 (by decide)).1

/-- Claim C9: `sendPacket`'s output is independent of the static state left
by earlier calls — every static is reassigned before being read — so two
successive transmissions of the same command produce identical event
sequences and identical return values. -/
theorem claim9_deterministic (s1 s2 : SPState) (yaw pitch throttle trim : ℕ) :
    ((sendPacketS s1 yaw pitch throttle trim).1 = (sendPacketS s2 yaw pitch throttle trim).1 ∧
     (sendPacketS s1 yaw pitch throttle trim).2.1 =
       (sendPacketS s2 yaw pitch throttle trim).2.1) ∧
    ((sendPacketS (sendPacketS s1 yaw pitch throttle trim).2.2 yaw pitch throttle trim).1 =
       (sendPacketS s1 yaw pitch throttle trim).1 ∧
     (sendPacketS (sendPacketS s1 yaw pitch throttle trim).2.2 yaw pitch throttle trim).2.1 =
       (sendPacketS s1 yaw pitch throttle trim).2.1) :=
  ⟨⟨rfl, rfl⟩, ⟨rfl, rfl⟩⟩

/-- Claim C10: `pulse(cycles)` terminates for every integer input (the
well-founded recursion above is exactly the loop's termination argument)
and emits exactly `max(cycles, 0)` full high/low carrier cycles; for
`cycles ≤ 0` it emits nothing at all. -/
theorem claim10_pulse (cycles : ℤ) :
    (pulse cycles).count Ev.high = (max cycles 0).toNat ∧
    (pulse cycles).count Ev.low = (max cycles 0).toNat ∧
    (cycles ≤ 0 → pulse cycles = []) := by
  have e := pulse_eq_toNat cycles
  refine ⟨?_, ?_, fun h => pulse_nonpos cycles h⟩
  · rw [e, count_flatten_replicate_cycle]
    have h1 : cycleEvents.count Ev.high = 1 := by decide
    rw [h1]
    omega
  · rw [e, count_flatten_replicate_cycle]
    have h1 : cycleEvents.count Ev.low = 1 := by decide
    rw [h1]
    omega

/-- Witness for `claim10_pulse` at `cycles = -3` and `cycles = 5`. -/
theorem claim10_pulse_witness :
    (-3 : ℤ) ≤ 0 ∧ pulse (-3) = [] ∧ (pulse 5).count Ev.high = (max (5 : ℤ) 0).toNat :=
  ⟨by decide, (claim10_pulse (-3)).2.2 (by decide), (claim10_pulse 5).1⟩

/-- Claim C8: for every command the total transmission time computed by
`sendPacket` is at most 36312µs — strictly below the 100000µs target
period — and the returned residual delay is strictly positive; the
negative-residual case is unreachable for any 4-byte input. -/
theorem claim8_safety (yaw pitch throttle trim : ℕ) :
    total_packet_time (sendPacketOnes yaw pitch throttle trim)
        (sendPacketZeroes yaw pitch throttle trim) ≤ 36312 ∧
    total_packet_time (sendPacketOnes yaw pitch throttle trim)
        (sendPacketZeroes yaw pitch throttle trim) < 100000 ∧
    0 < sendPacket yaw pitch throttle trim := by
  have hb := total_packet_time_bound yaw pitch throttle trim
  have hp := sendPacket_bounds yaw pitch throttle trim
  exact ⟨hb, by omega, by omega⟩

end Syma
